import Mathlib

/-!
# Verification of the FreibuJobs scraping pipeline specification

This file gives a shallow embedding, in Lean 4, of the string-processing and
control-flow kernels of the FreibuJobs repository (a Telegram bot that scrapes
a job site):

* the freshness and relevance validation heuristics
  (`src/scraper/linkedin_enhanced.py`),
* the search-URL builder (`src/scraper/linkedin.py`),
* the fallback job synthesizer (`src/scraper/linkedin_enhanced.py`),
* the multi-tier search strategies (`src/scraper/linkedin.py`,
  `src/scraper/linkedin_fixed.py`),
* the page-level URL extractor (`src/scraper/linkedin.py`),
* the per-user conversation-state bookkeeping (`src/bot/handlers.py`).

Python strings are modelled as `List Char`; effectful browser calls are
modelled by explicit oracle inputs (mocked extraction results, exception
flags).  All definitions are executable.
-/

namespace FreibuJobs

/-! ## Generic character-list utilities -/

/-- The whitespace characters recognised by Python's `str.strip()` /
`str.split()` (space, tab, newline, carriage return, vertical tab, form feed). -/
def pyIsSpace (c : Char) : Bool :=
  c = ' ' || c = '\t' || c = '\n' || c = '\r' || c = '\x0b' || c = '\x0c'

/-- Python `str.lower()` on ASCII text. -/
def lowerL (l : List Char) : List Char :=
  l.map Char.toLower

/-- Python `str.strip()`: drop leading and trailing whitespace. -/
def trimL (l : List Char) : List Char :=
  ((l.dropWhile pyIsSpace).reverse.dropWhile pyIsSpace).reverse

/-- `startsWithL s p = true` iff `p` is a prefix of `s`. -/
def startsWithL : List Char → List Char → Bool
  | _, [] => true
  | [], _ :: _ => false
  | a :: s, b :: p => a == b && startsWithL s p

/-- `hasSub s p = true` iff `p` occurs as a contiguous substring of `s`
(Python's `p in s`). -/
def hasSub (s p : List Char) : Bool :=
  match s with
  | [] => startsWithL [] p
  | _ :: t => startsWithL s p || hasSub t p

/-- The first maximal run of decimal digits in a string
(`re.findall(r"\d+", s)[0]` when it exists). -/
def firstDigitRun : List Char → Option (List Char)
  | [] => none
  | c :: cs =>
    if c.isDigit then some (c :: cs.takeWhile Char.isDigit)
    else firstDigitRun cs

/-- Decimal value of a digit string (Python `int` on a digit run). -/
def digitsVal (l : List Char) : Nat :=
  l.foldl (fun a c => a * 10 + (c.toNat - 48)) 0

/-! ## Freshness validation (`linkedin_enhanced.py`, `_is_fresh_posting` /
`_validate_job_freshness`) -/

/-- The "fresh" keyword bucket of `_is_fresh_posting`. -/
def freshKeywords : List (List Char) :=
  ["hour", "hours", "minute", "minutes", "day", "days", "today", "yesterday"].map
    String.toList

/-- The "old" keyword bucket of `_is_fresh_posting`. -/
def oldKeywords : List (List Char) :=
  ["week", "weeks", "month", "months", "year", "years"].map String.toList

/-- `LinkedInEnhancedScraper._is_fresh_posting`, line by line: empty text is
fresh; otherwise the lowercased, stripped text is scanned for the fresh bucket
first (with the extra first-number check when `"day"` occurs), then for the old
bucket; unmatched text defaults to fresh. -/
def is_fresh_posting (time_text : List Char) : Bool :=
  if time_text = [] then true
  else
    let t := trimL (lowerL time_text)
    if freshKeywords.any (fun k => hasSub t k) then
      if hasSub t ("day".toList) then
        match firstDigitRun t with
        | some run => if 2 < digitsVal run then false else true
        | none => true
      else true
    else if oldKeywords.any (fun k => hasSub t k) then false
    else true

/-- `LinkedInEnhancedScraper._validate_job_freshness`.  The input models, per
time selector, the optional time text found for the job element (`none` when
the selector lookup raised).  The loop returns `True` as soon as one text is
fresh; a non-fresh text only makes it `continue`; after the loop (and in the
outer exception handler) it returns `True`. -/
def validate_job_freshness : List (Option (List Char)) → Bool
  | [] => true
  | none :: rest => validate_job_freshness rest
  | some t :: rest =>
    if is_fresh_posting t then true else validate_job_freshness rest

/-! ## Relevance validation (`linkedin_enhanced.py`, `_validate_job_relevance`) -/

/-- Helper for `splitWs`: scan the text, `cur` holding the reversed current
word. -/
def splitWsAux : List Char → List Char → List (List Char)
  | [], cur => if cur = [] then [] else [cur.reverse]
  | c :: cs, cur =>
    if pyIsSpace c then
      if cur = [] then splitWsAux cs [] else cur.reverse :: splitWsAux cs []
    else splitWsAux cs (c :: cur)

/-- Python `str.split()` with no separator: split on whitespace runs,
discarding empty pieces. -/
def splitWs (l : List Char) : List (List Char) :=
  splitWsAux l []

/-- `LinkedInEnhancedScraper._validate_job_relevance`.  `exc` models an
exception inside the validation (the `except` branch returns `True`).  The
sequential early returns of the Python body are the boolean disjunction: some
whitespace-split keyword term of length ≥ 3 occurs in the lowercased title or
company, or one of the bonus words occurs in both the keyword and the title. -/
def validate_job_relevance (exc : Bool) (title company keyword : List Char) : Bool :=
  if exc then true
  else
    let t := lowerL title
    let c := lowerL company
    let k := lowerL keyword
    ((splitWs k).any fun term =>
        decide (3 ≤ term.length) && (hasSub t term || hasSub c term))
    || (hasSub k ("developer".toList) && hasSub t ("developer".toList))
    || (hasSub k ("engineer".toList) && hasSub t ("engineer".toList))
    || (hasSub k ("intern".toList) && hasSub t ("intern".toList))

/-- The relevance check as the specification claims it: a query term occurs as
a substring of title or company (no length threshold, no bonus-word rule). -/
def relevance_claimed (title company keyword : List Char) : Bool :=
  (splitWs (lowerL keyword)).any fun term =>
    hasSub (lowerL title) term || hasSub (lowerL company) term

/-! ## Decimal rendering of naturals (Python `str` on an `int`) -/

/-- Fuel-driven decimal rendering; `fuel` bounds the number of divisions. -/
def natToDecAux : Nat → Nat → List Char
  | 0, _ => []
  | fuel + 1, n =>
    if n < 10 then [Char.ofNat (48 + n)]
    else natToDecAux fuel (n / 10) ++ [Char.ofNat (48 + n % 10)]

/-- Decimal representation of a natural number, most significant digit first
(Python `str(n)`). -/
def natToDec (n : Nat) : List Char :=
  natToDecAux (n + 1) n

/-- Left-to-right decimal evaluator, the inverse of `natToDec`. -/
def decToNat (acc : Nat) : List Char → Nat
  | [] => acc
  | c :: cs => decToNat (acc * 10 + (c.toNat - 48)) cs

/-! ## Fallback job synthesis (`linkedin_enhanced.py`,
`_generate_realistic_jobs`) -/

/-- Modelled from the spec: the repository calls Python's `random` module
(`random.randint`, `random.choice`), whose Mersenne-Twister generator is
library code outside this repository.  The spec only relies on it being "a
pseudo-random numeric id", deterministic for a fixed seed, so it is modelled
by a deterministic 64-bit linear congruential generator state. -/
structure PyRandom where
  seed : Nat
deriving Repr, DecidableEq

/-- One step of the modelled generator. -/
def rngNext (s : Nat) : Nat :=
  (6364136223846793005 * s + 1442695040888963407) % 18446744073709551616

/-- Draw a value in `[0, n)` and the successor state. -/
def randBelow (r : PyRandom) (n : Nat) : Nat × PyRandom :=
  let s := rngNext r.seed
  (s % n, ⟨s⟩)

/-- `random.randint(a, b)`: uniform on the inclusive range `[a, b]`. -/
def py_randint (r : PyRandom) (a b : Nat) : Nat × PyRandom :=
  let v := randBelow r (b - a + 1)
  (a + v.1, v.2)

/-- `random.choice(xs)` on a list of strings. -/
def py_choice (r : PyRandom) (xs : List String) : String × PyRandom :=
  let i := randBelow r xs.length
  (xs.getD i.1 "", i.2)

/-- A job record as built by the enhanced scraper
(`{"company": ..., "title": ..., "location": ..., "url": ...}`). -/
structure Job where
  company : String
  title : String
  location : String
  url : String
deriving Repr, DecidableEq

/-- The hard-coded company table of `_generate_realistic_jobs`. -/
def tech_companies : List String :=
  ["TCS", "Infosys", "Wipro", "HCL Technologies", "Tech Mahindra",
   "Cognizant", "Accenture", "IBM India", "Microsoft India", "Amazon India",
   "Flipkart", "Paytm", "Zomato", "Swiggy", "BYJU'S"]

/-- The hard-coded city table of `_generate_realistic_jobs`. -/
def indian_cities : List String :=
  ["Bangalore, Karnataka, India",
   "Mumbai, Maharashtra, India",
   "Pune, Maharashtra, India",
   "Hyderabad, Telangana, India",
   "Chennai, Tamil Nadu, India",
   "Delhi, India"]

/-- `f"https://www.linkedin.com/jobs/view/{job_id}"`. -/
def jobViewUrl (n : Nat) : String :=
  String.mk ("https://www.linkedin.com/jobs/view/".toList ++ natToDec n)

/-- The loop body of `_generate_realistic_jobs`: iteration `i` draws a company
then a location and builds the job with id `base_id + i`. -/
def genJobsAux (keyword : String) (is_int : Bool) (base : Nat) :
    Nat → Nat → PyRandom → List Job
  | _, 0, _ => []
  | i, cnt + 1, r =>
    let c := py_choice r tech_companies
    let l := py_choice c.2 indian_cities
    let title := if is_int then keyword ++ " Intern" else keyword
    ⟨c.1, title, l.1, jobViewUrl (base + i)⟩ ::
      genJobsAux keyword is_int base (i + 1) cnt l.2

/-- `LinkedInEnhancedScraper._generate_realistic_jobs`: draw
`base_id = random.randint(4000000000, 4099999999)`, then build
`min(max_results, 5)` jobs with consecutive ids. -/
def generate_realistic_jobs (keyword : String) (is_int : Bool)
    (max_results : Nat) (r : PyRandom) : List Job :=
  let b := py_randint r 4000000000 4099999999
  genJobsAux keyword is_int b.1 0 (min max_results 5) b.2

/-! ## Enhanced streaming search (`linkedin_enhanced.py`,
`_enhanced_streaming_search`) -/

/-- URL-based deduplication as performed against the `found_urls` set while
`_attempt_enhanced_linkedin_scraping` accumulates jobs. -/
def dedupByUrlAux (seen : List String) : List Job → List Job
  | [] => []
  | j :: rest =>
    if j.url ∈ seen then dedupByUrlAux seen rest
    else j :: dedupByUrlAux (seen ++ [j.url]) rest

/-- Deduplicate a job list by URL, keeping first occurrences. -/
def dedupByUrl (jobs : List Job) : List Job :=
  dedupByUrlAux [] jobs

/-- `_attempt_enhanced_linkedin_scraping` with a mocked extraction layer:
`scraped` is the stream of validated jobs the location loop would collect, and
`exc = some k` models an exception escaping the loop after `k` jobs were
streamed.  Returns the accumulated jobs and the success flag
(`found_count > 0`, and `False` on exception). -/
def attempt_enhanced (scraped : List Job) (exc : Option Nat) : List Job × Bool :=
  match exc with
  | none =>
    let js := dedupByUrl scraped
    (js, decide (0 < js.length))
  | some k => (dedupByUrl (scraped.take k), false)

/-- `LinkedInEnhancedScraper._enhanced_streaming_search` over the mocked
extraction layer: if the scraping attempt reports success the accumulated jobs
are returned as-is; otherwise `_try_alternative_search_methods` appends the
synthesized jobs of `_generate_realistic_jobs` to the same accumulator. -/
def enhanced_streaming_search (scraped : List Job) (exc : Option Nat)
    (keyword : String) (is_int : Bool) (max_results : Nat) (r : PyRandom) : List Job :=
  let att := attempt_enhanced scraped exc
  if att.2 then att.1
  else att.1 ++ generate_realistic_jobs keyword is_int max_results r

/-! ## Per-tier search (`linkedin.py`, `_search_jobs_by_criteria`) -/

/-- The per-page accumulation loop of `_search_jobs_by_criteria`: each URL not
yet collected is appended, breaking as soon as `max_results` is reached. -/
def addUrls (maxr : Nat) : List String → List String → List String
  | acc, [] => acc
  | acc, u :: rest =>
    if u ∈ acc then addUrls maxr acc rest
    else
      if maxr ≤ (acc ++ [u]).length then acc ++ [u]
      else addUrls maxr (acc ++ [u]) rest

/-- The pagination loop of `_search_jobs_by_criteria`
(`while len(job_urls) < max_results and pages_checked < max_pages`): `fuel`
is the page budget (`max_pages = 3`) and `pages` the pages the browser can
still serve (exhaustion models the missing next-page button). -/
def pagesLoop (maxr : Nat) : List String → List (List String) → Nat → List String
  | acc, _, 0 => acc
  | acc, [], _ => acc
  | acc, p :: rest, fuel + 1 =>
    if maxr ≤ acc.length then acc
    else pagesLoop maxr (addUrls maxr acc p) rest fuel

/-- `LinkedInScraper._search_jobs_by_criteria` with the browser modelled as an
oracle.  `nav = none` models a timeout or exception during driver setup or
navigation; every raising statement in the body precedes the extraction loop
(driver creation, `driver.get`, `driver.title`, `driver.current_url`), while
`_extract_job_urls` and the next-page block catch their own exceptions, so the
`except` branch's `return job_urls[:max_results]` runs with `job_urls` empty.
`nav = some pages` gives the per-page extraction results. -/
def search_jobs_by_criteria (nav : Option (List (List String))) (maxr : Nat) : List String :=
  match nav with
  | none => ([] : List String).take maxr
  | some pages => (pagesLoop maxr [] pages 3).take maxr

/-! ## Multi-tier streaming search (`linkedin.py`, `_streaming_search`) -/

/-- The per-URL accumulation of `_streaming_search`: a URL is appended only if
it is new and the requested count has not yet been reached. -/
def addCapped (maxr : Nat) : List String → List String → List String
  | acc, [] => acc
  | acc, u :: rest =>
    if u ∉ acc ∧ acc.length < maxr then addCapped maxr (acc ++ [u]) rest
    else addCapped maxr acc rest

/-- The tier-1 location loop of `_streaming_search`: each location is tried
only while the count is below the requested maximum. -/
def tier1Fold (maxr : Nat) : List String → List (List String) → List String
  | acc, [] => acc
  | acc, b :: rest =>
    if maxr ≤ acc.length then acc
    else tier1Fold maxr (addCapped maxr acc b) rest

/-- `LinkedInScraper._streaming_search` (linkedin.py) over mocked per-tier
extraction results: tier 1 is the list of per-India-location URL batches,
tier 2 the remote batch, tier 3 the global batch; tiers 2 and 3 are gated on
`found_count < max_results`. -/
def streaming_search (t1 : List (List String)) (rem glob : List String) (maxr : Nat) :
    List String :=
  let a1 := tier1Fold maxr [] t1
  let a2 := if a1.length < maxr then addCapped maxr a1 rem else a1
  if a2.length < maxr then addCapped maxr a2 glob else a2

/-! ## Multi-tier non-streaming search (`linkedin.py`,
`search_for_jobs_and_internships`) -/

/-- A tag naming one tier attempt (one `_search_jobs_by_criteria` call). -/
inductive TierTag
  | domesticT (i : Nat)
  | remoteT (i : Nat)
  | globalT
deriving DecidableEq, Repr

/-- Set union `all_job_urls.update(urls)`, modelled as insertion-ordered
deduplicating append. -/
def setUpdate : List String → List String → List String
  | acc, [] => acc
  | acc, u :: rest =>
    if u ∈ acc then setUpdate acc rest else setUpdate (acc ++ [u]) rest

/-- The tier-1 loop of `search_for_jobs_and_internships`, instrumented with
the trace of locations attempted: each location is attempted only while
`len(all_job_urls) < max_results`, and its whole batch is unioned in. -/
def tier1Set (maxr : Nat) : List String → List (List String) → Nat →
    List String × List TierTag
  | acc, [], _ => (acc, [])
  | acc, b :: rest, i =>
    if maxr ≤ acc.length then (acc, [])
    else
      let res := tier1Set maxr (setUpdate acc b) rest (i + 1)
      (res.1, TierTag.domesticT i :: res.2)

/-- Accumulated URLs and trace after tier 1 of
`search_for_jobs_and_internships`. -/
def sfjiTier1 (t1 : List (List String)) (maxr : Nat) : List String × List TierTag :=
  tier1Set maxr [] t1 0

/-- Accumulated URLs after the (gated) remote tier of
`search_for_jobs_and_internships`. -/
def sfjiAfter2 (t1 : List (List String)) (rem : List String) (maxr : Nat) : List String :=
  if (sfjiTier1 t1 maxr).1.length < maxr then setUpdate (sfjiTier1 t1 maxr).1 rem
  else (sfjiTier1 t1 maxr).1

/-- `LinkedInScraper.search_for_jobs_and_internships` over mocked per-tier
extraction results, instrumented with the trace of tier attempts.  Tier 1
(India locations) runs first; the remote tier only if the count is still below
the requested maximum; the global tier likewise; finally
`list(all_job_urls)[:max_results]`. -/
def search_for_jobs_full (t1 : List (List String)) (rem glob : List String)
    (maxr : Nat) : List String × List TierTag :=
  let p1 := sfjiTier1 t1 maxr
  let a2 := sfjiAfter2 t1 rem maxr
  let tr2 : List TierTag :=
    if p1.1.length < maxr then [TierTag.remoteT 0] else []
  let a3 := if a2.length < maxr then setUpdate a2 glob else a2
  let tr3 : List TierTag :=
    if a2.length < maxr then [TierTag.globalT] else []
  (a3.take maxr, p1.2 ++ tr2 ++ tr3)

/-- The URL list returned by `search_for_jobs_and_internships`. -/
def search_for_jobs_and_internships (t1 : List (List String)) (rem glob : List String)
    (maxr : Nat) : List String :=
  (search_for_jobs_full t1 rem glob maxr).1

/-! ## Multi-tier streaming search (`linkedin_fixed.py`, `_streaming_search`)

The extractor `_extract_job_urls_streaming` records every URL it returns in
the shared `all_found_urls` set; the tier loops then re-check
`job_url not in all_found_urls` before appending to `all_job_urls`. -/

/-- `_extract_job_urls_streaming` over a mocked page: returns the batch of new
URLs (capped by the remaining count) and the updated shared found-set. -/
def extractStream : List String → List String → Nat → List String × List String
  | fs, _, 0 => ([], fs)
  | fs, [], _ => ([], fs)
  | fs, u :: rest, cap + 1 =>
    if u ∈ fs then extractStream fs rest (cap + 1)
    else
      let res := extractStream (fs ++ [u]) rest cap
      (u :: res.1, res.2)

/-- The caller-side loop of `linkedin_fixed._streaming_search` over one
returned batch: append each URL that is not in the shared found-set. -/
def callerAdd : List String → List String → List String → List String × List String
  | acc, fs, [] => (acc, fs)
  | acc, fs, u :: rest =>
    if u ∈ fs then callerAdd acc fs rest
    else callerAdd (acc ++ [u]) (fs ++ [u]) rest

/-- One tier loop of `linkedin_fixed._streaming_search` (India locations, or
the remote locations): per location, break once the count is reached,
otherwise extract a batch (sharing the found-set) and run the caller-side
accumulation. -/
def goTier (tag : Nat → TierTag) (maxr : Nat) :
    List String → List String → List (List String) → Nat →
    List String × List String × List TierTag
  | acc, fs, [], _ => (acc, fs, [])
  | acc, fs, raw :: rest, i =>
    if maxr ≤ acc.length then (acc, fs, [])
    else
      let ex := extractStream fs raw (maxr - acc.length)
      let ca := callerAdd acc ex.2 ex.1
      let res := goTier tag maxr ca.1 ca.2 rest (i + 1)
      (res.1, res.2.1, tag i :: res.2.2)

/-- State after tier 1 (India locations) of `linkedin_fixed._streaming_search`. -/
def fixedP1 (t1 : List (List String)) (maxr : Nat) :
    List String × List String × List TierTag :=
  goTier TierTag.domesticT maxr [] [] t1 0

/-- State after the (gated) remote tier of `linkedin_fixed._streaming_search`. -/
def fixedP2 (t1 t2 : List (List String)) (maxr : Nat) :
    List String × List String × List TierTag :=
  let p1 := fixedP1 t1 maxr
  if p1.1.length < maxr then goTier TierTag.remoteT maxr p1.1 p1.2.1 t2 0
  else (p1.1, p1.2.1, [])

/-- `linkedin_fixed.LinkedInScraper._streaming_search`, instrumented with the
trace of tier attempts: India locations, then the remote locations, then a
single gated global search. -/
def fixed_streaming_full (t1 t2 : List (List String)) (t3 : List String)
    (maxr : Nat) : List String × List TierTag :=
  let p1 := fixedP1 t1 maxr
  let p2 := fixedP2 t1 t2 maxr
  let p3 : List String × List TierTag :=
    if p2.1.length < maxr then
      let ex := extractStream p2.2.1 t3 (maxr - p2.1.length)
      let ca := callerAdd p2.1 ex.2 ex.1
      (ca.1, [TierTag.globalT])
    else (p2.1, [])
  (p3.1, p1.2.2 ++ p2.2.2 ++ p3.2)

/-- The URL list returned by `linkedin_fixed._streaming_search`. -/
def fixed_streaming (t1 t2 : List (List String)) (t3 : List String) (maxr : Nat) :
    List String :=
  (fixed_streaming_full t1 t2 t3 maxr).1

/-! ## Search-URL builder (`linkedin.py`, `_build_search_url`) -/

/-- `keyword.replace(' ', '%20')` at character level. -/
def encSpaces : List Char → List Char
  | [] => []
  | c :: cs => (if c = ' ' then ['%', '2', '0'] else [c]) ++ encSpaces cs

/-- `'&'.join(params)` at character level. -/
def joinAmp : List (List Char) → List Char
  | [] => []
  | [x] => x
  | x :: y :: rest => x ++ '&' :: joinAmp (y :: rest)

/-- The internship marker parameter `"f_JT=I"`. -/
def internMarker : List Char :=
  "f_JT=I".toList

/-- `LinkedInScraper._build_search_url` (linkedin.py): appends " intern" to
internship keywords lacking "intern", percent-encodes spaces in keyword and
location, and assembles `keywords=`, optional `location=`, `f_TPR=`, optional
`f_WT=`, the internship `f_JT=I` marker, and `sortBy=DD`, joined by `&` after
the base URL. -/
def build_search_url (keyword location time_filter work_type : List Char)
    (is_internship : Bool) : List Char :=
  "https://www.linkedin.com/jobs/search/?".toList ++
    joinAmp
      ((("keywords=".toList)
          ++ encSpaces
            (if is_internship && !(hasSub (lowerL keyword) ("intern".toList)) then
              keyword ++ (' ' :: "intern".toList)
             else keyword)) ::
        ((if location = [] then [] else [("location=".toList) ++ encSpaces location])
          ++ [("f_TPR=".toList) ++ time_filter]
          ++ (if work_type = [] then [] else [("f_WT=".toList) ++ work_type])
          ++ (if is_internship then [internMarker] else [])
          ++ [("sortBy=DD".toList)]))

/-! ## Page-level URL extraction (`linkedin.py`, `_extract_job_urls`) -/

/-- `href.split('?')[0]`: everything before the first question mark. -/
def beforeQ (h : List Char) : List Char :=
  h.takeWhile (fun c => c != '?')

/-- The inner element loop of `_extract_job_urls` for one selector: each
element's optional `href` is kept when non-empty and containing
`"/jobs/view/"`, cleaned of tracking parameters, and deduplicated. -/
def addHrefs : List (List Char) → List (Option (List Char)) → List (List Char)
  | acc, [] => acc
  | acc, none :: rest => addHrefs acc rest
  | acc, some h :: rest =>
    if h ≠ [] ∧ hasSub h ("/jobs/view/".toList) = true then
      if beforeQ h ∈ acc then addHrefs acc rest
      else addHrefs (acc ++ [beforeQ h]) rest
    else addHrefs acc rest

/-- The selector loop of `_extract_job_urls`: selectors are tried in order,
stopping early once at least 10 URLs were collected. -/
def selPhase : List (List Char) → List (List (Option (List Char))) → List (List Char)
  | acc, [] => acc
  | acc, es :: rest =>
    if 10 ≤ (addHrefs acc es).length then addHrefs acc es
    else selPhase (addHrefs acc es) rest

/-- A job card as read by the fallback branch of `_extract_job_urls` (title
and company default to `"Unknown Position"` / `"Unknown Company"` upstream;
an empty location means none was found). -/
structure CardInfo where
  title : List Char
  company : List Char
  location : List Char
deriving Repr, DecidableEq

/-- The info string built for one card:
`"TITLE: {title} | COMPANY: {company}"` plus an optional location part. -/
def cardInfoStr (c : CardInfo) : List Char :=
  "TITLE: ".toList ++ c.title ++ " | COMPANY: ".toList ++ c.company
    ++ (if c.location = [] then [] else " | LOCATION: ".toList ++ c.location)

/-- `LinkedInScraper._extract_job_urls` with the page modelled as an oracle:
`sels` lists, per tried selector, the optional hrefs of the matched anchors;
`cards` the job cards available to the fallback branch.  When the selector
phase found no direct link, the first 10 cards are rendered as info strings
and returned in the URL list. -/
def extract_job_urls (sels : List (List (Option (List Char)))) (cards : List CardInfo) :
    List (List Char) :=
  if selPhase [] sels = [] then (cards.take 10).map cardInfoStr
  else selPhase [] sels

/-! ## Conversation state (`bot/handlers.py`) -/

/-- The per-user payload stored by `ConversationData` (string keys such as
`"job_type"`, `"role"` mapped to string values). -/
abbrev UserData := List (String × String)

/-- `ConversationData._user_data`: the in-memory mapping from Telegram user id
to conversation data. -/
abbrev UserMap := List (Nat × UserData)

/-- `ConversationData.clear_user_data`: delete the entry for `uid` if present. -/
def clear_user_data (m : UserMap) (uid : Nat) : UserMap :=
  m.filter (fun p => p.1 != uid)

/-- Lookup of `uid` in the conversation mapping (`uid in self._user_data`). -/
def find_user : UserMap → Nat → Option UserData
  | [], _ => none
  | (k, v) :: rest, uid => if k = uid then some v else find_user rest uid

/-- The possible ways `ConversationHandlers.perform_search` can finish: a
result list was sent, the no-results message was sent, or an exception was
raised somewhere in the body (including while sending the error message). -/
inductive SearchOutcome
  | found (urls : List String)
  | noResults
  | errorDuring

/-- Effect of `ConversationHandlers.perform_search` on the conversation
mapping: every path runs the `finally` block, which calls
`clear_conversation_data(user_id)`. -/
def perform_search (outcome : SearchOutcome) (m : UserMap) (uid : Nat) : UserMap :=
  match outcome with
  | .found _ => clear_user_data m uid
  | .noResults => clear_user_data m uid
  | .errorDuring => clear_user_data m uid

/-- Effect of `ConversationHandlers.handle_timeout` on the conversation
mapping.  The timeout notification `reply_text` is awaited *before* the
`clear_user_data` call inside the same `try`; if the reply raises
(`replyOk = false`), the `except` branch returns without clearing. -/
def handle_timeout (replyOk : Bool) (m : UserMap) (uid : Nat) : UserMap :=
  if replyOk then clear_user_data m uid else m

/-! ## Theorems -/

/-- `startsWithL` decides the prefix relation. -/
theorem startsWithL_iff (p : List Char) :
    ∀ s, startsWithL s p = true ↔ p <+: s := by
  induction p with
  | nil =>
    intro s
    constructor
    · intro _
      exact ⟨s, rfl⟩
    · intro _
      cases s <;> rfl
  | cons b bs ih =>
    intro s
    cases s with
    | nil =>
      rw [show startsWithL [] (b :: bs) = false from rfl]
      simp [List.prefix_nil]
    | cons a as =>
      rw [show startsWithL (a :: as) (b :: bs) = ((a == b) && startsWithL as bs) from rfl]
      rw [List.cons_prefix_cons]
      simp only [Bool.and_eq_true, beq_iff_eq, ih as]
      constructor
      · rintro ⟨h1, h2⟩
        exact ⟨h1.symm, h2⟩
      · rintro ⟨h1, h2⟩
        exact ⟨h1.symm, h2⟩

/-- A prefix is an infix. -/
theorem infix_of_pref {α : Type} {l₁ l₂ : List α} (h : l₁ <+: l₂) : l₁ <:+: l₂ := by
  obtain ⟨t, rfl⟩ := h
  exact ⟨[], t, rfl⟩

/-- A suffix is an infix. -/
theorem infix_of_suff {α : Type} {l₁ l₂ : List α} (h : l₁ <:+ l₂) : l₁ <:+: l₂ := by
  obtain ⟨s, rfl⟩ := h
  exact ⟨s, [], by simp⟩

/-- `hasSub` decides the substring (infix) relation. -/
theorem hasSub_iff (p : List Char) :
    ∀ s, hasSub s p = true ↔ p <:+: s := by
  intro s
  induction s with
  | nil =>
    rw [show hasSub [] p = startsWithL [] p from rfl, startsWithL_iff]
    constructor
    · exact fun h => infix_of_pref h
    · intro h
      have hp : p = [] := List.sublist_nil.mp h.sublist
      subst hp
      exact List.prefix_refl []
  | cons a t ih =>
    rw [show hasSub (a :: t) p = (startsWithL (a :: t) p || hasSub t p) from rfl]
    simp [startsWithL_iff, ih, List.infix_cons_iff]

/-- C6 counterexample to the claim as stated: for keyword "go", title
"go developer" and company "acme", the query term "go" does occur in the
title, yet the code rejects the job because terms shorter than 3 characters
are skipped and no bonus word applies. -/
theorem validate_job_relevance_counterexample :
    relevance_claimed ("go developer".toList) ("acme".toList) ("go".toList) = true ∧
    validate_job_relevance false ("go developer".toList) ("acme".toList) ("go".toList) = false := by
  decide

/-- C6 (amended).  The relevance check accepts exactly when an exception
occurred during validation, or some whitespace-split query term of length at
least 3 occurs as a substring of the lowercased title or company, or one of
the bonus words "developer"/"engineer"/"intern" occurs both in the lowercased
keyword and in the lowercased title. -/
theorem validate_job_relevance_spec (exc : Bool) (title company keyword : List Char) :
    validate_job_relevance exc title company keyword = true ↔
      (exc = true
       ∨ (∃ term ∈ splitWs (lowerL keyword),
            3 ≤ term.length ∧ (term <:+: lowerL title ∨ term <:+: lowerL company))
       ∨ (("developer".toList <:+: lowerL keyword) ∧ ("developer".toList <:+: lowerL title))
       ∨ (("engineer".toList <:+: lowerL keyword) ∧ ("engineer".toList <:+: lowerL title))
       ∨ (("intern".toList <:+: lowerL keyword) ∧ ("intern".toList <:+: lowerL title))) := by
  cases exc with
  | true => simp [validate_job_relevance]
  | false =>
    simp only [validate_job_relevance, Bool.false_eq_true, if_false, Bool.or_eq_true,
      Bool.and_eq_true, List.any_eq_true, decide_eq_true_eq, hasSub_iff, false_or]
    constructor
    · rintro (((⟨term, hm, hlen, hoc⟩ | hd) | he) | hi)
      · exact Or.inl ⟨term, hm, hlen, hoc⟩
      · exact Or.inr (Or.inl hd)
      · exact Or.inr (Or.inr (Or.inl he))
      · exact Or.inr (Or.inr (Or.inr hi))
    · rintro (⟨term, hm, hlen, hoc⟩ | hd | he | hi)
      · exact Or.inl (Or.inl (Or.inl ⟨term, hm, hlen, hoc⟩))
      · exact Or.inl (Or.inl (Or.inr hd))
      · exact Or.inl (Or.inr he)
      · exact Or.inr hi

/-- C1 (amended).  The freshness predicate rejects text containing "week" or
"month" only when the text contains no fresh keyword; it accepts text
containing "hour" or "today" unless the text also contains "day" (as "today"
itself does) whose first embedded number exceeds 2; empty or keyword-free text
is assumed fresh; and `_validate_job_freshness` returns `True` in every case,
in particular when no time element is found or an exception occurs. -/
theorem is_fresh_posting_spec (s : List Char) :
    (s ≠ [] →
      freshKeywords.any (fun k => hasSub (trimL (lowerL s)) k) = false →
      oldKeywords.any (fun k => hasSub (trimL (lowerL s)) k) = true →
      is_fresh_posting s = false)
  ∧ ((hasSub (trimL (lowerL s)) ("hour".toList) = true ∨
      hasSub (trimL (lowerL s)) ("today".toList) = true) →
      (hasSub (trimL (lowerL s)) ("day".toList) = true →
        ∀ run, firstDigitRun (trimL (lowerL s)) = some run → digitsVal run ≤ 2) →
      is_fresh_posting s = true)
  ∧ (s = [] → is_fresh_posting s = true)
  ∧ (freshKeywords.any (fun k => hasSub (trimL (lowerL s)) k) = false →
      oldKeywords.any (fun k => hasSub (trimL (lowerL s)) k) = false →
      is_fresh_posting s = true)
  ∧ (∀ xs, validate_job_freshness xs = true) := by
  refine ⟨?_, ?_, ?_, ?_, ?_⟩
  · intro hne hfresh hold
    simp only [is_fresh_posting, if_neg hne, hfresh, hold]
    simp
  · intro hmem hnum
    have hne : s ≠ [] := by
      intro h
      subst h
      simp [trimL, lowerL, hasSub, startsWithL] at hmem
    have hfresh : freshKeywords.any (fun k => hasSub (trimL (lowerL s)) k) = true := by
      rcases hmem with h | h
      · exact List.any_eq_true.mpr ⟨"hour".toList, by simp [freshKeywords], h⟩
      · exact List.any_eq_true.mpr ⟨"today".toList, by simp [freshKeywords], h⟩
    simp only [is_fresh_posting, if_neg hne, hfresh, if_true]
    by_cases hday : hasSub (trimL (lowerL s)) ("day".toList) = true
    · simp only [hday, if_true]
      cases hrun : firstDigitRun (trimL (lowerL s)) with
      | none => rfl
      | some run =>
        have := hnum hday run hrun
        simp only [if_neg (by omega : ¬ 2 < digitsVal run)]
    · simp only [Bool.not_eq_true] at hday
      simp only [hday, Bool.false_eq_true, if_false]

  · intro h
    simp [is_fresh_posting, h]
  · intro hfresh hold
    by_cases hne : s = []
    · simp [is_fresh_posting, hne]
    · simp only [is_fresh_posting, if_neg hne, hfresh, hold]
      simp
  · intro xs
    induction xs with
    | nil => rfl
    | cons x rest ih =>
      cases x with
      | none => simpa [validate_job_freshness] using ih
      | some t =>
        simp only [validate_job_freshness]
        split
        · rfl
        · exact ih

/-- Witness for `is_fresh_posting_spec`: "3 weeks ago" contains an old keyword
and no fresh keyword, so the predicate rejects it; "3 hours ago" contains
"hour" and no "day", so the acceptance conjunct applies with its day-number
hypothesis vacuous. -/
theorem is_fresh_posting_spec_witness :
    is_fresh_posting ("3 weeks ago".toList) = false
    ∧ is_fresh_posting ("3 hours ago".toList) = true :=
  ⟨(is_fresh_posting_spec ("3 weeks ago".toList)).1 (by decide) (by decide) (by decide),
   (is_fresh_posting_spec ("3 hours ago".toList)).2.1 (Or.inl (by decide))
     (fun hday => absurd hday (by decide))⟩

/-- C1 counterexample to the claim as stated: "3 hours ago today" contains
both "hour" and "today" yet is rejected (the first number 3 exceeds the 2-day
cutoff triggered because "today" contains "day"), and "1 hour this week"
contains "week" yet is accepted (the fresh bucket is checked first). -/
theorem is_fresh_posting_counterexample :
    is_fresh_posting ("3 hours ago today".toList) = false ∧
    is_fresh_posting ("1 hour this week".toList) = true := by
  decide

/-- Clearing removes the user's entry from the mapping. -/
theorem find_user_clear (m : UserMap) (uid : Nat) :
    find_user (clear_user_data m uid) uid = none := by
  induction m with
  | nil => rfl
  | cons p rest ih =>
    obtain ⟨k, v⟩ := p
    unfold clear_user_data at ih ⊢
    by_cases hk : k = uid
    · subst hk
      simpa [List.filter_cons] using ih
    · rw [List.filter_cons]
      have hcond : ((k, v).1 != uid) = true := by simpa using hk
      rw [if_pos hcond]
      rw [show find_user ((k, v) :: (rest.filter (fun p => p.1 != uid))) uid
            = if k = uid then some v
              else find_user (rest.filter (fun p => p.1 != uid)) uid from rfl]
      rw [if_neg hk]
      exact ih

/-- C7 (amended).  After `perform_search` finishes — normally, with no
results, or via an exception — the conversation mapping has no entry for the
user (the `finally` block always clears).  After a conversation timeout the
entry is removed provided the timeout notification was sent successfully; if
sending it raises, the mapping is left unchanged and the entry survives. -/
theorem conversation_state_cleared_spec :
    (∀ (outcome : SearchOutcome) (m : UserMap) (uid : Nat),
        find_user (perform_search outcome m uid) uid = none)
  ∧ (∀ (m : UserMap) (uid : Nat), find_user (handle_timeout true m uid) uid = none)
  ∧ (∀ (m : UserMap) (uid : Nat), find_user (handle_timeout false m uid) uid = find_user m uid) := by
  refine ⟨?_, ?_, ?_⟩
  · intro outcome m uid
    cases outcome <;> exact find_user_clear m uid
  · intro m uid
    exact find_user_clear m uid
  · intro m uid
    rfl

/-- C7 counterexample to the claim as stated: if the timeout notification
fails to send, `handle_timeout` returns without clearing, so user 7's state is
still present afterwards. -/
theorem handle_timeout_counterexample :
    find_user (handle_timeout false [(7, [("role", "x")])] 7) 7 = some [("role", "x")] := by
  rfl

/-- `decToNat` distributes over append. -/
theorem decToNat_append (a : List Char) :
    ∀ (b : List Char) (acc : Nat), decToNat acc (a ++ b) = decToNat (decToNat acc a) b := by
  induction a with
  | nil => intro b acc; rfl
  | cons c cs ih =>
    intro b acc
    rw [List.cons_append]
    rw [show decToNat acc ((c :: (cs ++ b))) = decToNat (acc * 10 + (c.toNat - 48)) (cs ++ b) from rfl]
    rw [ih]
    rfl

/-- The digit character of `d < 10` decodes back to `d`. -/
theorem digitChar_toNat (d : Nat) (h : d < 10) : (Char.ofNat (48 + d)).toNat - 48 = d := by
  interval_cases d <;> decide

/-- `decToNat` is a left inverse of `natToDecAux` (with enough fuel). -/
theorem decToNat_natToDecAux :
    ∀ (fuel n acc : Nat), n < fuel →
      decToNat acc (natToDecAux fuel n) = acc * 10 ^ (natToDecAux fuel n).length + n := by
  intro fuel
  induction fuel with
  | zero => intro n acc h; omega
  | succ f ih =>
    intro n acc h
    by_cases hn : n < 10
    · rw [show natToDecAux (f + 1) n = [Char.ofNat (48 + n)] from by rw [natToDecAux]; simp [hn]]
      rw [show decToNat acc [Char.ofNat (48 + n)]
            = acc * 10 + ((Char.ofNat (48 + n)).toNat - 48) from rfl]
      rw [digitChar_toNat n hn]
      simp
    · rw [show natToDecAux (f + 1) n
            = natToDecAux f (n / 10) ++ [Char.ofNat (48 + n % 10)] from by
          rw [natToDecAux]; simp [hn]]
      have hf : n / 10 < f := by
        have h1 : n / 10 < n := Nat.div_lt_self (by omega) (by omega)
        omega
      rw [decToNat_append, ih (n / 10) acc hf]
      rw [show decToNat (acc * 10 ^ (natToDecAux f (n / 10)).length + n / 10)
              [Char.ofNat (48 + n % 10)]
            = (acc * 10 ^ (natToDecAux f (n / 10)).length + n / 10) * 10
              + ((Char.ofNat (48 + n % 10)).toNat - 48) from rfl]
      rw [digitChar_toNat (n % 10) (by omega)]
      rw [List.length_append, List.length_singleton, pow_succ, ← Nat.mul_assoc]
      generalize acc * 10 ^ (natToDecAux f (n / 10)).length = A
      omega

/-- Decimal rendering is injective. -/
theorem natToDec_inj {a b : Nat} (h : natToDec a = natToDec b) : a = b := by
  have ha := decToNat_natToDecAux (a + 1) a 0 (by omega)
  have hb := decToNat_natToDecAux (b + 1) b 0 (by omega)
  simp only [Nat.zero_mul, Nat.zero_add] at ha hb
  unfold natToDec at h
  rw [h] at ha
  rw [ha] at hb
  exact hb

/-- Job-view URLs are injective in the job id. -/
theorem jobViewUrl_inj {a b : Nat} (h : jobViewUrl a = jobViewUrl b) : a = b := by
  have hd := congrArg String.data h
  simp only [jobViewUrl] at hd
  exact natToDec_inj (List.append_cancel_left hd)

/-- The synthesizer loop produces exactly `cnt` jobs. -/
theorem genJobsAux_length (keyword : String) (is_int : Bool) (base : Nat) :
    ∀ (cnt i : Nat) (r : PyRandom),
      (genJobsAux keyword is_int base i cnt r).length = cnt := by
  intro cnt
  induction cnt with
  | zero => intro i r; rfl
  | succ c ih =>
    intro i r
    rw [show genJobsAux keyword is_int base i (c + 1) r
          = (let cm := py_choice r tech_companies
             let l := py_choice cm.2 indian_cities
             ⟨cm.1, if is_int then keyword ++ " Intern" else keyword, l.1,
               jobViewUrl (base + i)⟩ ::
               genJobsAux keyword is_int base (i + 1) c l.2) from rfl]
    simp only [List.length_cons, ih]

/-- The URLs produced by the synthesizer loop are the consecutive job-view
URLs starting at `base + i`. -/
theorem genJobsAux_map_url (keyword : String) (is_int : Bool) (base : Nat) :
    ∀ (cnt i : Nat) (r : PyRandom),
      (genJobsAux keyword is_int base i cnt r).map Job.url
        = (List.range cnt).map (fun j => jobViewUrl (base + i + j)) := by
  intro cnt
  induction cnt with
  | zero => intro i r; rfl
  | succ c ih =>
    intro i r
    rw [show genJobsAux keyword is_int base i (c + 1) r
          = (let cm := py_choice r tech_companies
             let l := py_choice cm.2 indian_cities
             ⟨cm.1, if is_int then keyword ++ " Intern" else keyword, l.1,
               jobViewUrl (base + i)⟩ ::
               genJobsAux keyword is_int base (i + 1) c l.2) from rfl]
    simp only [List.map_cons, ih, List.range_succ_eq_map, List.map_map]
    have h1 : base + i + 0 = base + i := by omega
    rw [h1]
    have h2 : ((fun j => jobViewUrl (base + i + j)) ∘ Nat.succ)
        = fun j => jobViewUrl (base + (i + 1) + j) := by
      funext j
      simp only [Function.comp_apply]
      congr 1
      omega
    rw [h2]

/-- C3 (confirmed).  The fallback synthesizer returns exactly
`min (max_results) 5` jobs, their URLs are pairwise distinct, and the output
is a pure function of the generator seed (fixed seed ⇒ identical list of
companies, titles, locations and URLs). -/
theorem generate_realistic_jobs_spec (keyword : String) (is_int : Bool)
    (n : Nat) (r : PyRandom) :
    (generate_realistic_jobs keyword is_int n r).length = min n 5
  ∧ ((generate_realistic_jobs keyword is_int n r).map Job.url).Nodup
  ∧ (∀ r2 : PyRandom, r2.seed = r.seed →
      generate_realistic_jobs keyword is_int n r2
        = generate_realistic_jobs keyword is_int n r) := by
  refine ⟨?_, ?_, ?_⟩
  · unfold generate_realistic_jobs
    exact genJobsAux_length keyword is_int _ (min n 5) 0 _
  · unfold generate_realistic_jobs
    rw [genJobsAux_map_url]
    show ((List.range (min n 5)).map
      (fun j => jobViewUrl ((py_randint r 4000000000 4099999999).1 + 0 + j))).Pairwise (· ≠ ·)
    refine List.Pairwise.map _ ?_ (List.pairwise_lt_range (min n 5))
    intro a b hab heq
    have := jobViewUrl_inj heq
    omega
  · intro r2 h
    obtain ⟨s2⟩ := r2
    obtain ⟨s⟩ := r
    simp only at h
    subst h
    rfl

/-- C8 counterexample to the claim as stated: with a mocked extraction layer
returning 3 real postings (and no exception), `maxResults = 5` for role
"Python Developer", the search reports success (`found_count > 0`) and never
falls back, so the result has length 3, not 5 — and `Job` records carry no
real/synthetic flag at all. -/
theorem enhanced_search_counterexample :
    (enhanced_streaming_search
        [⟨"TCS", "Python Developer", "Bangalore", jobViewUrl 4000000001⟩,
         ⟨"Infosys", "Python Developer", "Pune", jobViewUrl 4000000002⟩,
         ⟨"Wipro", "Python Developer", "Delhi", jobViewUrl 4000000003⟩]
        none "Python Developer" false 5 ⟨0⟩).length = 3 := by
  decide

/-- C8 (amended).  When the mocked extraction layer yields at least one job
and no exception, the result is exactly the deduplicated scraped list (no
synthetic entries are appended); when it yields nothing, the result is exactly
the synthesized list; when an exception interrupts it after `k` jobs, the
partial real list is kept and the synthesized list is appended after it. -/
theorem enhanced_search_spec (scraped : List Job) (keyword : String)
    (is_int : Bool) (max_results : Nat) (r : PyRandom)
    (h : 0 < (dedupByUrl scraped).length) :
    enhanced_streaming_search scraped none keyword is_int max_results r
      = dedupByUrl scraped
  ∧ enhanced_streaming_search [] none keyword is_int max_results r
      = generate_realistic_jobs keyword is_int max_results r
  ∧ (∀ k, enhanced_streaming_search scraped (some k) keyword is_int max_results r
      = dedupByUrl (scraped.take k)
        ++ generate_realistic_jobs keyword is_int max_results r) := by
  refine ⟨?_, ?_, ?_⟩
  · unfold enhanced_streaming_search attempt_enhanced
    simp [h]
  · rfl
  · intro k
    rfl

/-- Witness for `enhanced_search_spec` at a concrete scraped list. -/
theorem enhanced_search_spec_witness :
    enhanced_streaming_search [⟨"TCS", "Python Developer", "Bangalore", jobViewUrl 7⟩]
        none "Python Developer" false 5 ⟨0⟩
      = dedupByUrl [⟨"TCS", "Python Developer", "Bangalore", jobViewUrl 7⟩] :=
  (enhanced_search_spec _ "Python Developer" false 5 ⟨0⟩ (by decide)).1

/-- C4 (confirmed).  When a timeout or exception occurs during browser-driven
extraction for a tier, `_search_jobs_by_criteria` returns the empty list — not
a partial one — because every raising call precedes any accumulation and the
exception path returns the (empty) accumulator truncated to `max_results`.
The caller is then free to try the next tier. -/
theorem search_jobs_by_criteria_exception_empty :
    ∀ maxr : Nat, search_jobs_by_criteria none maxr = [] := by
  intro maxr
  simp [search_jobs_by_criteria]

/-- Appending a fresh element preserves `Nodup`. -/
theorem nodup_append_singleton {l : List String} {u : String}
    (h : l.Nodup) (hu : u ∉ l) : (l ++ [u]).Nodup := by
  rw [List.nodup_append]
  exact ⟨h, List.nodup_singleton u, List.disjoint_singleton.mpr hu⟩

/-- `addCapped` preserves `Nodup`. -/
theorem addCapped_nodup (maxr : Nat) :
    ∀ (l acc : List String), acc.Nodup → (addCapped maxr acc l).Nodup := by
  intro l
  induction l with
  | nil => intro acc h; exact h
  | cons u rest ih =>
    intro acc h
    rw [addCapped]
    split
    · next hc => exact ih _ (nodup_append_singleton h hc.1)
    · exact ih _ h

/-- `addCapped` never pushes the length beyond `maxr`. -/
theorem addCapped_len (maxr : Nat) :
    ∀ (l acc : List String), acc.length ≤ maxr → (addCapped maxr acc l).length ≤ maxr := by
  intro l
  induction l with
  | nil => intro acc h; exact h
  | cons u rest ih =>
    intro acc h
    rw [addCapped]
    split
    · next hc =>
      refine ih _ ?_
      have := hc.2
      simp only [List.length_append, List.length_singleton]
      omega
    · exact ih _ h

/-- The tier-1 loop of the streaming search preserves `Nodup`. -/
theorem tier1Fold_nodup (maxr : Nat) :
    ∀ (bs : List (List String)) (acc : List String),
      acc.Nodup → (tier1Fold maxr acc bs).Nodup := by
  intro bs
  induction bs with
  | nil => intro acc h; exact h
  | cons b rest ih =>
    intro acc h
    rw [tier1Fold]
    split
    · exact h
    · exact ih _ (addCapped_nodup maxr b acc h)

/-- The tier-1 loop of the streaming search respects the length cap. -/
theorem tier1Fold_len (maxr : Nat) :
    ∀ (bs : List (List String)) (acc : List String),
      acc.length ≤ maxr → (tier1Fold maxr acc bs).length ≤ maxr := by
  intro bs
  induction bs with
  | nil => intro acc h; exact h
  | cons b rest ih =>
    intro acc h
    rw [tier1Fold]
    split
    · exact h
    · exact ih _ (addCapped_len maxr b acc h)

/-- `setUpdate` preserves `Nodup`. -/
theorem setUpdate_nodup :
    ∀ (l acc : List String), acc.Nodup → (setUpdate acc l).Nodup := by
  intro l
  induction l with
  | nil => intro acc h; exact h
  | cons u rest ih =>
    intro acc h
    rw [setUpdate]
    split
    · next => exact ih _ h
    · next hc => exact ih _ (nodup_append_singleton h hc)

/-- The instrumented tier-1 loop of the non-streaming search preserves
`Nodup`. -/
theorem tier1Set_nodup (maxr : Nat) :
    ∀ (bs : List (List String)) (acc : List String) (i : Nat),
      acc.Nodup → (tier1Set maxr acc bs i).1.Nodup := by
  intro bs
  induction bs with
  | nil => intro acc i h; exact h
  | cons b rest ih =>
    intro acc i h
    rw [tier1Set]
    split
    · exact h
    · exact ih _ _ (setUpdate_nodup b acc h)

/-- The extractor's returned batch is contained in its updated found-set, and
the found-set only grows. -/
theorem extractStream_inv :
    ∀ (raw fs : List String) (cap : Nat),
      (∀ x ∈ fs, x ∈ (extractStream fs raw cap).2)
      ∧ (∀ u ∈ (extractStream fs raw cap).1, u ∈ (extractStream fs raw cap).2) := by
  intro raw
  induction raw with
  | nil =>
    intro fs cap
    cases cap with
    | zero => exact ⟨fun x hx => hx, by simp [extractStream]⟩
    | succ c => exact ⟨fun x hx => hx, by simp [extractStream]⟩
  | cons u rest ih =>
    intro fs cap
    cases cap with
    | zero => exact ⟨fun x hx => hx, by simp [extractStream]⟩
    | succ c =>
      rw [extractStream]
      split
      · exact ih fs (c + 1)
      · next hu =>
        obtain ⟨h1, h2⟩ := ih (fs ++ [u]) c
        refine ⟨?_, ?_⟩
        · intro x hx
          exact h1 x (by simp [hx])
        · intro v hv
          rw [List.mem_cons] at hv
          rcases hv with rfl | hv
          · exact h1 v (by simp)
          · exact h2 v hv

/-- When every URL of the batch is already in the shared found-set, the
caller-side loop adds nothing. -/
theorem callerAdd_all_mem :
    ∀ (batch acc fs : List String), (∀ u ∈ batch, u ∈ fs) →
      callerAdd acc fs batch = (acc, fs) := by
  intro batch
  induction batch with
  | nil => intro acc fs _; rfl
  | cons u rest ih =>
    intro acc fs h
    rw [callerAdd]
    rw [if_pos (h u (by simp))]
    exact ih acc fs (fun v hv => h v (by simp [hv]))

/-- `goTier` never extends the caller's accumulator: every batch URL was
already recorded in the shared found-set by the extractor. -/
theorem goTier_acc (tag : Nat → TierTag) (maxr : Nat) :
    ∀ (raws : List (List String)) (acc fs : List String) (i : Nat),
      (goTier tag maxr acc fs raws i).1 = acc := by
  intro raws
  induction raws with
  | nil => intro acc fs i; rfl
  | cons raw rest ih =>
    intro acc fs i
    rw [goTier]
    split
    · rfl
    · obtain ⟨h1, h2⟩ := extractStream_inv raw fs (maxr - acc.length)
      have hca := callerAdd_all_mem _ acc _ h2
      simp only [hca, ih]

/-- `linkedin_fixed._streaming_search` always returns the empty list: the
shared found-set already contains every URL a batch reports, so the caller's
duplicate re-check never lets a URL through. -/
theorem fixed_streaming_nil (t1 t2 : List (List String)) (t3 : List String)
    (maxr : Nat) : fixed_streaming t1 t2 t3 maxr = [] := by
  have hp1 : (fixedP1 t1 maxr).1 = [] := goTier_acc _ _ t1 [] [] 0
  have hp2 : (fixedP2 t1 t2 maxr).1 = [] := by
    rw [fixedP2]
    split
    · rw [goTier_acc, hp1]
    · exact hp1
  rw [fixed_streaming]
  simp only [fixed_streaming_full]
  split
  · obtain ⟨h1, h2⟩ := extractStream_inv t3 (fixedP2 t1 t2 maxr).2.1
      (maxr - (fixedP2 t1 t2 maxr).1.length)
    have hca := callerAdd_all_mem _ (fixedP2 t1 t2 maxr).1 _ h2
    simp only [hca]
    exact hp2
  · exact hp2

/-- A gated `addCapped` phase preserves `Nodup` and the length cap. -/
theorem gatedAdd_nodup_len (maxr : Nat) (l a : List String)
    (h : a.Nodup) (hl : a.length ≤ maxr) :
    (if a.length < maxr then addCapped maxr a l else a).Nodup
    ∧ (if a.length < maxr then addCapped maxr a l else a).length ≤ maxr := by
  split
  · exact ⟨addCapped_nodup maxr l a h, addCapped_len maxr l a hl⟩
  · exact ⟨h, hl⟩

/-- C9 (confirmed).  For every keyword, `max_results` and mocked per-tier
extraction results, each top-level search operation — the streaming search of
`linkedin.py`, the non-streaming `search_for_jobs_and_internships`, and the
streaming search of `linkedin_fixed.py` — returns a list of pairwise-distinct
entries of length at most `max_results`. -/
theorem search_results_invariant (t1 : List (List String)) (rem glob : List String)
    (u1 u2 : List (List String)) (u3 : List String) (maxr : Nat) :
    (streaming_search t1 rem glob maxr).Nodup
  ∧ (streaming_search t1 rem glob maxr).length ≤ maxr
  ∧ (search_for_jobs_and_internships t1 rem glob maxr).Nodup
  ∧ (search_for_jobs_and_internships t1 rem glob maxr).length ≤ maxr
  ∧ (fixed_streaming u1 u2 u3 maxr).Nodup
  ∧ (fixed_streaming u1 u2 u3 maxr).length ≤ maxr := by
  have h1 : (tier1Fold maxr [] t1).Nodup := tier1Fold_nodup maxr t1 [] (by simp)
  have h1l : (tier1Fold maxr [] t1).length ≤ maxr := tier1Fold_len maxr t1 [] (by simp)
  have s1 := gatedAdd_nodup_len maxr rem _ h1 h1l
  have s2 := gatedAdd_nodup_len maxr glob _ s1.1 s1.2
  refine ⟨?_, ?_, ?_, ?_, ?_, ?_⟩
  · simp only [streaming_search]
    exact s2.1
  · simp only [streaming_search]
    exact s2.2
  · simp only [search_for_jobs_and_internships, search_for_jobs_full]
    have hn1 : (sfjiTier1 t1 maxr).1.Nodup := tier1Set_nodup maxr t1 [] 0 (by simp)
    have hn2 : (sfjiAfter2 t1 rem maxr).Nodup := by
      rw [sfjiAfter2]
      split
      · exact setUpdate_nodup _ _ hn1
      · exact hn1
    refine List.Nodup.sublist (List.take_sublist _ _) ?_
    split
    · exact setUpdate_nodup _ _ hn2
    · exact hn2
  · simp only [search_for_jobs_and_internships, search_for_jobs_full]
    exact List.length_take_le _ _
  · rw [fixed_streaming_nil]
    exact List.nodup_nil
  · rw [fixed_streaming_nil]
    simp

/-- Shifting a mapped range by one step. -/
theorem range_map_shift {β : Type} (g : Nat → β) (k i : Nat) :
    (List.range (k + 1)).map (fun j => g (i + j))
      = g i :: (List.range k).map (fun j => g (i + 1 + j)) := by
  rw [List.range_succ_eq_map, List.map_cons, List.map_map]
  have htail : List.map ((fun j => g (i + j)) ∘ Nat.succ) (List.range k)
      = List.map (fun j => g (i + 1 + j)) (List.range k) := by
    congr 1
    funext j
    show g (i + (j + 1)) = g (i + 1 + j)
    exact congrArg g (by omega)
  rw [htail]
  exact congrArg (· :: List.map (fun j => g (i + 1 + j)) (List.range k))
    (congrArg g (Nat.add_zero i))

/-- The trace of the instrumented tier-1 loop is an initial run of
consecutively-indexed domestic tags. -/
theorem tier1Set_trace (maxr : Nat) :
    ∀ (bs : List (List String)) (acc : List String) (i : Nat),
      ∃ k, k ≤ bs.length
        ∧ (tier1Set maxr acc bs i).2
            = (List.range k).map (fun j => TierTag.domesticT (i + j)) := by
  intro bs
  induction bs with
  | nil => intro acc i; exact ⟨0, Nat.le_refl 0, rfl⟩
  | cons b rest ih =>
    intro acc i
    rw [tier1Set]
    split
    · exact ⟨0, by simp, rfl⟩
    · obtain ⟨k, hk, htr⟩ := ih (setUpdate acc b) (i + 1)
      refine ⟨k + 1, by simp only [List.length_cons]; omega, ?_⟩
      rw [range_map_shift]
      simp only [htr]

/-- The trace of one `goTier` loop is an initial run of consecutively-indexed
tags. -/
theorem goTier_trace (tag : Nat → TierTag) (maxr : Nat) :
    ∀ (raws : List (List String)) (acc fs : List String) (i : Nat),
      ∃ k, k ≤ raws.length
        ∧ (goTier tag maxr acc fs raws i).2.2
            = (List.range k).map (fun j => tag (i + j)) := by
  intro raws
  induction raws with
  | nil => intro acc fs i; exact ⟨0, Nat.le_refl 0, rfl⟩
  | cons raw rest ih =>
    intro acc fs i
    rw [goTier]
    split
    · exact ⟨0, by simp, rfl⟩
    · obtain ⟨k, hk, htr⟩ := ih
        (callerAdd acc (extractStream fs raw (maxr - acc.length)).2
          (extractStream fs raw (maxr - acc.length)).1).1
        (callerAdd acc (extractStream fs raw (maxr - acc.length)).2
          (extractStream fs raw (maxr - acc.length)).1).2
        (i + 1)
      refine ⟨k + 1, by simp only [List.length_cons]; omega, ?_⟩
      rw [range_map_shift]
      simp only [htr]

/-- The trace component of `search_for_jobs_full`, unfolded. -/
theorem sfji_trace_eq (t1 : List (List String)) (rem glob : List String) (maxr : Nat) :
    (search_for_jobs_full t1 rem glob maxr).2
      = (sfjiTier1 t1 maxr).2
        ++ (if (sfjiTier1 t1 maxr).1.length < maxr then [TierTag.remoteT 0] else [])
        ++ (if (sfjiAfter2 t1 rem maxr).length < maxr then [TierTag.globalT] else []) :=
  rfl

/-- The result component of `search_for_jobs_full`, unfolded. -/
theorem sfji_result_eq (t1 : List (List String)) (rem glob : List String) (maxr : Nat) :
    search_for_jobs_and_internships t1 rem glob maxr
      = (if (sfjiAfter2 t1 rem maxr).length < maxr then
          setUpdate (sfjiAfter2 t1 rem maxr) glob
         else sfjiAfter2 t1 rem maxr).take maxr :=
  rfl

/-- The trace component of `fixed_streaming_full`, unfolded. -/
theorem fixed_trace_eq (u1 u2 : List (List String)) (u3 : List String) (maxr : Nat) :
    (fixed_streaming_full u1 u2 u3 maxr).2
      = (fixedP1 u1 maxr).2.2 ++ (fixedP2 u1 u2 maxr).2.2
        ++ (if (fixedP2 u1 u2 maxr).1.length < maxr then [TierTag.globalT] else []) := by
  simp only [fixed_streaming_full, apply_ite Prod.snd]

/-- The result component of `fixed_streaming_full`, unfolded. -/
theorem fixed_result_eq (u1 u2 : List (List String)) (u3 : List String) (maxr : Nat) :
    fixed_streaming u1 u2 u3 maxr
      = (if (fixedP2 u1 u2 maxr).1.length < maxr then
          (callerAdd (fixedP2 u1 u2 maxr).1
            (extractStream (fixedP2 u1 u2 maxr).2.1 u3
              (maxr - (fixedP2 u1 u2 maxr).1.length)).2
            (extractStream (fixedP2 u1 u2 maxr).2.1 u3
              (maxr - (fixedP2 u1 u2 maxr).1.length)).1).1
         else (fixedP2 u1 u2 maxr).1) := by
  simp only [fixed_streaming, fixed_streaming_full, apply_ite Prod.fst]

/-- C5 (confirmed).  Both cited multi-tier strategies try the tiers in the
fixed order domestic → remote → global: the trace of tier attempts is always a
sublist of that canonical order, a later tier is attempted only if the count
collected so far is below the requested count, and once the requested count is
reached no further tier runs and the result is the (truncated) tier-1
accumulation. -/
theorem multi_tier_order_spec (t1 : List (List String)) (rem glob : List String)
    (u1 u2 : List (List String)) (u3 : List String) (maxr : Nat) :
    ((search_for_jobs_full t1 rem glob maxr).2).Sublist
        ((List.range t1.length).map TierTag.domesticT
          ++ [TierTag.remoteT 0, TierTag.globalT])
  ∧ (TierTag.remoteT 0 ∈ (search_for_jobs_full t1 rem glob maxr).2 →
      (sfjiTier1 t1 maxr).1.length < maxr)
  ∧ (TierTag.globalT ∈ (search_for_jobs_full t1 rem glob maxr).2 →
      (sfjiAfter2 t1 rem maxr).length < maxr)
  ∧ (maxr ≤ (sfjiTier1 t1 maxr).1.length →
      search_for_jobs_and_internships t1 rem glob maxr = (sfjiTier1 t1 maxr).1.take maxr
      ∧ (search_for_jobs_full t1 rem glob maxr).2 = (sfjiTier1 t1 maxr).2)
  ∧ ((fixed_streaming_full u1 u2 u3 maxr).2).Sublist
        ((List.range u1.length).map TierTag.domesticT
          ++ (List.range u2.length).map TierTag.remoteT ++ [TierTag.globalT])
  ∧ (∀ j, TierTag.remoteT j ∈ (fixed_streaming_full u1 u2 u3 maxr).2 →
      (fixedP1 u1 maxr).1.length < maxr)
  ∧ (TierTag.globalT ∈ (fixed_streaming_full u1 u2 u3 maxr).2 →
      (fixedP2 u1 u2 maxr).1.length < maxr)
  ∧ (maxr ≤ (fixedP1 u1 maxr).1.length →
      fixed_streaming u1 u2 u3 maxr = (fixedP1 u1 maxr).1
      ∧ (fixed_streaming_full u1 u2 u3 maxr).2 = (fixedP1 u1 maxr).2.2) := by
  have hzero : (fun j => TierTag.domesticT (0 + j)) = TierTag.domesticT := by
    funext j
    rw [Nat.zero_add]
  have hzeroR : (fun j => TierTag.remoteT (0 + j)) = TierTag.remoteT := by
    funext j
    rw [Nat.zero_add]
  obtain ⟨k1, hk1, htr1⟩ := tier1Set_trace maxr t1 [] 0
  rw [hzero] at htr1
  obtain ⟨ka, hka, htra⟩ := goTier_trace TierTag.domesticT maxr u1 [] [] 0
  rw [hzero] at htra
  have htra' : (fixedP1 u1 maxr).2.2 = (List.range ka).map TierTag.domesticT := htra
  have htr1' : (sfjiTier1 t1 maxr).2 = (List.range k1).map TierTag.domesticT := htr1
  have hfix2 : (fixedP2 u1 u2 maxr).2.2.Sublist ((List.range u2.length).map TierTag.remoteT) := by
    simp only [fixedP2]
    split
    · obtain ⟨kb, hkb, htrb⟩ :=
        goTier_trace TierTag.remoteT maxr u2 (fixedP1 u1 maxr).1 (fixedP1 u1 maxr).2.1 0
      rw [hzeroR] at htrb
      rw [htrb]
      exact List.Sublist.map TierTag.remoteT (List.range_sublist.mpr hkb)
    · exact List.nil_sublist _
  have hfix2shape : ∀ x ∈ (fixedP2 u1 u2 maxr).2.2, ∃ j, x = TierTag.remoteT j := by
    intro x hx
    have := hfix2.subset hx
    simp only [List.mem_map, List.mem_range] at this
    obtain ⟨j, _, rfl⟩ := this
    exact ⟨j, rfl⟩
  refine ⟨?_, ?_, ?_, ?_, ?_, ?_, ?_, ?_⟩
  · rw [sfji_trace_eq, htr1']
    rw [show (List.range t1.length).map TierTag.domesticT
          ++ [TierTag.remoteT 0, TierTag.globalT]
        = ((List.range t1.length).map TierTag.domesticT ++ [TierTag.remoteT 0])
          ++ [TierTag.globalT] from by rw [List.append_assoc]; rfl]
    refine List.Sublist.append (List.Sublist.append ?_ ?_) ?_
    · exact List.Sublist.map TierTag.domesticT (List.range_sublist.mpr hk1)
    · split
      · exact List.Sublist.refl _
      · exact List.nil_sublist _
    · split
      · exact List.Sublist.refl _
      · exact List.nil_sublist _
  · intro hmem
    by_contra hge
    rw [sfji_trace_eq] at hmem
    have ha2 : sfjiAfter2 t1 rem maxr = (sfjiTier1 t1 maxr).1 := by
      rw [sfjiAfter2, if_neg hge]
    rw [if_neg hge, ha2, if_neg hge] at hmem
    rw [htr1'] at hmem
    simp [List.mem_map] at hmem
  · intro hmem
    by_contra hge
    rw [sfji_trace_eq, if_neg hge, List.append_nil] at hmem
    rw [List.mem_append] at hmem
    rcases hmem with h | h
    · rw [htr1'] at h
      simp [List.mem_map] at h
    · split at h
      · simp at h
      · simp at h
  · intro hge
    have hb : ¬ (sfjiTier1 t1 maxr).1.length < maxr := by omega
    have ha2 : sfjiAfter2 t1 rem maxr = (sfjiTier1 t1 maxr).1 := by
      rw [sfjiAfter2, if_neg hb]
    constructor
    · rw [sfji_result_eq, ha2, if_neg hb]
    · rw [sfji_trace_eq, ha2, if_neg hb, if_neg hb]
      simp
  · rw [fixed_trace_eq, htra']
    refine List.Sublist.append (List.Sublist.append ?_ ?_) ?_
    · exact List.Sublist.map TierTag.domesticT (List.range_sublist.mpr hka)
    · exact hfix2
    · split
      · exact List.Sublist.refl _
      · exact List.nil_sublist _
  · intro j hmem
    by_contra hge
    rw [fixed_trace_eq] at hmem
    have hp2 : fixedP2 u1 u2 maxr = ((fixedP1 u1 maxr).1, (fixedP1 u1 maxr).2.1, []) := by
      simp only [fixedP2]
      rw [if_neg hge]
    rw [hp2] at hmem
    simp only [List.append_nil] at hmem
    rw [if_neg (by simpa using hge)] at hmem
    rw [htra', List.append_nil] at hmem
    simp [List.mem_map] at hmem
  · intro hmem
    by_contra hge
    rw [fixed_trace_eq, if_neg hge, List.append_nil, List.mem_append] at hmem
    rcases hmem with h | h
    · rw [htra'] at h
      simp [List.mem_map] at h
    · obtain ⟨j, hj⟩ := hfix2shape _ h
      cases hj
  · intro hge
    have hb : ¬ (fixedP1 u1 maxr).1.length < maxr := by omega
    have hp2 : fixedP2 u1 u2 maxr = ((fixedP1 u1 maxr).1, (fixedP1 u1 maxr).2.1, []) := by
      simp only [fixedP2]
      rw [if_neg hb]
    constructor
    · rw [fixed_result_eq, hp2]
      rw [if_neg (by simpa using hb)]
    · rw [fixed_trace_eq, hp2]
      rw [if_neg (by simpa using hb)]
      simp

/-- Witness for `multi_tier_order_spec`: with one domestic batch `["a", "b"]`
and `max_results = 1`, tier 1 already meets the count, so the search returns
its truncation and no later tier is attempted. -/
theorem multi_tier_order_spec_witness :
    search_for_jobs_and_internships [["a", "b"]] [] [] 1 = ["a"]
    ∧ (search_for_jobs_full [["a", "b"]] [] [] 1).2 = [TierTag.domesticT 0] :=
  ⟨((multi_tier_order_spec [["a", "b"]] [] [] [] [] [] 1).2.2.2.1 (by decide)).1,
   by
    have h := ((multi_tier_order_spec [["a", "b"]] [] [] [] [] [] 1).2.2.2.1 (by decide)).2
    rw [h]
    decide⟩

/-- The cleaned URL part contains no question mark. -/
theorem beforeQ_no_q (h : List Char) : '?' ∉ beforeQ h := by
  intro hm
  have := List.mem_takeWhile_imp hm
  simp at this

/-- Provenance of the selector-phase accumulator: every entry was already
present or is the cleaned form of some scraped href containing the job-view
marker. -/
theorem addHrefs_mem :
    ∀ (es : List (Option (List Char))) (acc : List (List Char)) (u : List Char),
      u ∈ addHrefs acc es →
      u ∈ acc ∨ ∃ h, some h ∈ es ∧ hasSub h ("/jobs/view/".toList) = true ∧ u = beforeQ h := by
  intro es
  induction es with
  | nil => intro acc u hu; exact Or.inl hu
  | cons e rest ih =>
    intro acc u hu
    cases e with
    | none =>
      rcases ih acc u hu with h | ⟨h, hm, hs, he⟩
      · exact Or.inl h
      · exact Or.inr ⟨h, by simp [hm], hs, he⟩
    | some href =>
      rw [addHrefs] at hu
      split at hu
      · next hcond =>
        split at hu
        · rcases ih acc u hu with h | ⟨h, hm, hs, he⟩
          · exact Or.inl h
          · exact Or.inr ⟨h, by simp [hm], hs, he⟩
        · rcases ih (acc ++ [beforeQ href]) u hu with h | ⟨h, hm, hs, he⟩
          · rw [List.mem_append] at h
            rcases h with h | h
            · exact Or.inl h
            · rw [List.mem_singleton] at h
              exact Or.inr ⟨href, by simp, hcond.2, h⟩
          · exact Or.inr ⟨h, by simp [hm], hs, he⟩
      · rcases ih acc u hu with h | ⟨h, hm, hs, he⟩
        · exact Or.inl h
        · exact Or.inr ⟨h, by simp [hm], hs, he⟩

/-- Provenance through the whole selector loop. -/
theorem selPhase_mem :
    ∀ (sels : List (List (Option (List Char)))) (acc : List (List Char)) (u : List Char),
      u ∈ selPhase acc sels →
      u ∈ acc ∨ ∃ es, es ∈ sels
        ∧ ∃ h, some h ∈ es ∧ hasSub h ("/jobs/view/".toList) = true ∧ u = beforeQ h := by
  intro sels
  induction sels with
  | nil => intro acc u hu; exact Or.inl hu
  | cons es rest ih =>
    intro acc u hu
    rw [selPhase] at hu
    have lift : u ∈ addHrefs acc es →
        u ∈ acc ∨ ∃ es2, es2 ∈ es :: rest
          ∧ ∃ h, some h ∈ es2 ∧ hasSub h ("/jobs/view/".toList) = true ∧ u = beforeQ h := by
      intro hm
      rcases addHrefs_mem es acc u hm with h | ⟨h, hmm, hs, he⟩
      · exact Or.inl h
      · exact Or.inr ⟨es, by simp, h, hmm, hs, he⟩
    split at hu
    · exact lift hu
    · rcases ih (addHrefs acc es) u hu with h | ⟨es2, hes2, hh⟩
      · exact lift h
      · exact Or.inr ⟨es2, by simp [hes2], hh⟩

/-- C10 (amended).  Every element of `_extract_job_urls`'s result either
begins with `"TITLE: "` (the card-info fallback, returned in the URL list and
flowing onward as if it were a URL), or contains no `"?"` and is the prefix,
up to the first `"?"`, of a scraped anchor href that contains `"/jobs/view/"`
— such an element itself contains `"/jobs/view/"` only when the marker occurs
before the first `"?"` of the href. -/
theorem extract_job_urls_spec (sels : List (List (Option (List Char))))
    (cards : List CardInfo) :
    ∀ u ∈ extract_job_urls sels cards,
      startsWithL u ("TITLE: ".toList) = true
      ∨ (('?' ∉ u)
         ∧ ∃ h, (∃ es, es ∈ sels ∧ some h ∈ es)
             ∧ hasSub h ("/jobs/view/".toList) = true ∧ u = beforeQ h) := by
  intro u hu
  rw [extract_job_urls] at hu
  split at hu
  · rw [List.mem_map] at hu
    obtain ⟨c, _, rfl⟩ := hu
    left
    rw [startsWithL_iff]
    rw [show cardInfoStr c
          = "TITLE: ".toList
            ++ (c.title ++ (" | COMPANY: ".toList ++ (c.company
              ++ (if c.location = [] then []
                  else " | LOCATION: ".toList ++ c.location))))
        from by simp [cardInfoStr, List.append_assoc]]
    exact ⟨_, rfl⟩
  · rcases selPhase_mem sels [] u hu with h | ⟨es, hes, h, hm, hs, he⟩
    · simp at h
    · right
      refine ⟨?_, h, ⟨es, hes, hm⟩, hs, he⟩
      rw [he]
      exact beforeQ_no_q h

/-- Witness for `extract_job_urls_spec` at a concrete scraped page. -/
theorem extract_job_urls_spec_witness :
    startsWithL (['a'] : List Char) ("TITLE: ".toList) = true
    ∨ (('?' ∉ (['a'] : List Char))
       ∧ ∃ h, (∃ es, es ∈ [[some ("a?b/jobs/view/1".toList)]] ∧ some h ∈ es)
           ∧ hasSub h ("/jobs/view/".toList) = true ∧ (['a'] : List Char) = beforeQ h) :=
  extract_job_urls_spec [[some ("a?b/jobs/view/1".toList)]] [] ['a'] (by decide)

/-- C10 counterexample to the claim as stated: an href whose first "?" comes
before the `/jobs/view/` marker is cleaned to a string that neither contains
`"/jobs/view/"` nor begins with `"TITLE: "`, yet is returned in the URL
list. -/
theorem extract_job_urls_counterexample :
    extract_job_urls [[some ("a?b/jobs/view/1".toList)]] [] = [['a']]
    ∧ hasSub ['a'] ("/jobs/view/".toList) = false
    ∧ startsWithL ['a'] ("TITLE: ".toList) = false := by
  decide

/-- Percent-encoding of spaces distributes over append. -/
theorem encSpaces_append (a : List Char) :
    ∀ b, encSpaces (a ++ b) = encSpaces a ++ encSpaces b := by
  induction a with
  | nil => intro b; rfl
  | cons c cs ih =>
    intro b
    rw [List.cons_append]
    rw [show encSpaces (c :: (cs ++ b))
          = (if c = ' ' then ['%', '2', '0'] else [c]) ++ encSpaces (cs ++ b) from rfl]
    rw [show encSpaces (c :: cs)
          = (if c = ' ' then ['%', '2', '0'] else [c]) ++ encSpaces cs from rfl]
    rw [ih, List.append_assoc]

/-- An occurrence of `p` inside `a ++ b` lies inside `a`, inside `b`, or
straddles the boundary: a nonempty proper prefix of `p` is a suffix of `a` and
the rest of `p` is a prefix of `b`. -/
theorem hasSub_append_cases (a b p : List Char) (h : hasSub (a ++ b) p = true) :
    hasSub a p = true ∨ hasSub b p = true
    ∨ ∃ i, 0 < i ∧ i < p.length ∧ (List.take i p <:+ a) ∧ (List.drop i p <+: b) := by
  rw [hasSub_iff] at h
  obtain ⟨s, t, hst⟩ := h
  by_cases h1 : s.length + p.length ≤ a.length
  · left
    rw [hasSub_iff]
    have ha : List.take a.length (s ++ (p ++ t)) = a := by
      rw [← List.append_assoc, hst]
      exact List.take_left a b
    rw [List.take_append_eq_append_take,
      List.take_of_length_le (by omega : s.length ≤ a.length),
      List.take_append_eq_append_take,
      List.take_of_length_le (by omega : p.length ≤ a.length - s.length)] at ha
    exact ⟨s, _, by rw [List.append_assoc]; exact ha⟩
  · by_cases h2 : a.length ≤ s.length
    · right
      left
      rw [hasSub_iff]
      have hb : List.drop a.length (s ++ (p ++ t)) = b := by
        rw [← List.append_assoc, hst]
        exact List.drop_left a b
      rw [List.drop_append_eq_append_drop, Nat.sub_eq_zero_of_le h2,
        List.drop_zero] at hb
      exact ⟨List.drop a.length s, t, by rw [List.append_assoc]; exact hb⟩
    · right
      right
      push_neg at h1 h2
      refine ⟨a.length - s.length, by omega, by omega, ?_, ?_⟩
      · have ha : List.take a.length (s ++ (p ++ t)) = a := by
          rw [← List.append_assoc, hst]
          exact List.take_left a b
        rw [List.take_append_eq_append_take,
          List.take_of_length_le (by omega : s.length ≤ a.length),
          List.take_append_of_le_length (by omega : a.length - s.length ≤ p.length)] at ha
        exact ⟨s, ha⟩
      · have hsplit : s ++ p ++ t
            = (s ++ List.take (a.length - s.length) p)
              ++ (List.drop (a.length - s.length) p ++ t) := by
          rw [List.append_assoc, List.append_assoc]
          congr 1
          rw [← List.append_assoc, List.take_append_drop]
        have hb : List.drop a.length (s ++ p ++ t) = b := by
          rw [hst]
          exact List.drop_left a b
        rw [hsplit] at hb
        have hlen : (s ++ List.take (a.length - s.length) p).length = a.length := by
          simp only [List.length_append, List.length_take]
          omega
        nth_rewrite 1 [← hlen] at hb
        rw [List.drop_left] at hb
        exact ⟨t, hb⟩

/-- Blocked-boundary append lemma, literal on the left: if `p` occurs neither
in `lit` nor in `rest`, and no nonempty proper prefix of `p` is a suffix of
`lit`, then `p` does not occur in `lit ++ rest`. -/
theorem hasSub_append_litL (lit rest p : List Char)
    (h1 : hasSub lit p = false) (h2 : hasSub rest p = false)
    (h3 : ∀ i, i < p.length → 0 < i → ¬ (List.take i p <:+ lit)) :
    hasSub (lit ++ rest) p = false := by
  by_contra hc
  rw [Bool.not_eq_false] at hc
  rcases hasSub_append_cases lit rest p hc with h | h | ⟨i, h0, hl, hsuf, _⟩
  · simp [h] at h1
  · simp [h] at h2
  · exact h3 i hl h0 hsuf

/-- Blocked-boundary append lemma, variable on the left: if `p` occurs
neither in `x` nor in `tail`, and no nonempty proper suffix of `p` is a
prefix of `tail`, then `p` does not occur in `x ++ tail`. -/
theorem hasSub_append_varL (x tail p : List Char)
    (hx : hasSub x p = false) (ht : hasSub tail p = false)
    (h3 : ∀ i, i < p.length → 0 < i → ¬ (List.drop i p <+: tail)) :
    hasSub (x ++ tail) p = false := by
  by_contra hc
  rw [Bool.not_eq_false] at hc
  rcases hasSub_append_cases x tail p hc with h | h | ⟨i, h0, hl, _, hpre⟩
  · simp [h] at hx
  · simp [h] at ht
  · exact h3 i hl h0 hpre

/-- A list whose head differs from `d` is no prefix of `d :: r`. -/
theorem not_pref_cons_of_head {s : List Char} {c d : Char} {r : List Char}
    (hs : s.head? = some c) (hne : c ≠ d) : ¬ (s <+: d :: r) := by
  intro hp
  cases s with
  | nil => simp at hs
  | cons a as =>
    rw [List.head?_cons, Option.some_inj] at hs
    rw [List.cons_prefix_cons] at hp
    exact hne (hs ▸ hp.1)

/-- No nonempty proper suffix of the internship marker starts with `'&'`. -/
theorem not_pref_marker_amp (i : Nat) (hi : i < 6) (h0 : 0 < i) (r : List Char) :
    ¬ (List.drop i internMarker <+: '&' :: r) := by
  interval_cases i
  · exact not_pref_cons_of_head rfl (by decide)
  · exact not_pref_cons_of_head rfl (by decide)
  · exact not_pref_cons_of_head rfl (by decide)
  · exact not_pref_cons_of_head rfl (by decide)
  · exact not_pref_cons_of_head rfl (by decide)

/-- Chain step across a variable segment followed by an `'&'`-led tail. -/
theorem chain_var_amp (x rest : List Char)
    (hx : hasSub x internMarker = false)
    (hrest : hasSub ('&' :: rest) internMarker = false) :
    hasSub (x ++ '&' :: rest) internMarker = false := by
  refine hasSub_append_varL x ('&' :: rest) internMarker hx hrest ?_
  intro i hi h0
  exact not_pref_marker_amp i hi h0 rest

/-- Chain step across a literal segment. -/
theorem chain_lit (lit rest : List Char)
    (hlit : hasSub lit internMarker = false)
    (hblock : ∀ i, i < 6 → 0 < i → ¬ (List.take i internMarker <:+ lit))
    (hrest : hasSub rest internMarker = false) :
    hasSub (lit ++ rest) internMarker = false :=
  hasSub_append_litL lit rest internMarker hlit hrest hblock

/-- An infix of the first parameter is an infix of the joined string. -/
theorem infix_joinAmp_head (q x : List Char) (ps : List (List Char))
    (h : q <:+: x) : q <:+: joinAmp (x :: ps) := by
  cases ps with
  | nil => exact h
  | cons y rest =>
    rw [show joinAmp (x :: y :: rest) = x ++ '&' :: joinAmp (y :: rest) from rfl]
    exact h.trans (infix_of_pref (List.prefix_append x _))

/-- An infix of any parameter is an infix of the joined string. -/
theorem infix_joinAmp_mem (q : List Char) :
    ∀ (ps : List (List Char)) (x : List Char), x ∈ ps → q <:+: x → q <:+: joinAmp ps := by
  intro ps
  induction ps with
  | nil => intro x hx; simp at hx
  | cons y rest ih =>
    intro x hx h
    rcases List.mem_cons.mp hx with rfl | hmem
    · exact infix_joinAmp_head q x rest h
    · cases rest with
      | nil => simp at hmem
      | cons z rs =>
        rw [show joinAmp (y :: z :: rs) = y ++ '&' :: joinAmp (z :: rs) from rfl]
        refine (ih x hmem h).trans (infix_of_suff ⟨y ++ ['&'], ?_⟩)
        simp

/-- C2 counterexample to the claim as stated: for the (pathological) keyword
`"f_JT=I"` with the internship flag unset, the built URL contains `"f_JT=I"`
inside its `keywords=` parameter, so "contains `f_JT=I` iff the flag is set"
fails. -/
theorem build_search_url_counterexample :
    hasSub (build_search_url ("f_JT=I".toList) [] ("r86400".toList) [] false)
      internMarker = true := by
  decide

/-- C2 (amended).  For every keyword, the built URL contains the keyword with
every space percent-encoded; the URL contains the internship marker `f_JT=I`
whenever the internship flag is set; and when the flag is unset the URL
contains `f_JT=I` only if the percent-encoded keyword, the percent-encoded
location, the time filter or the work type itself contains it. -/
theorem build_search_url_spec (keyword location time_filter work_type : List Char) :
    (∀ flag, hasSub (build_search_url keyword location time_filter work_type flag)
        (encSpaces keyword) = true)
  ∧ hasSub (build_search_url keyword location time_filter work_type true)
      internMarker = true
  ∧ (hasSub (encSpaces keyword) internMarker = false →
      hasSub (encSpaces location) internMarker = false →
      hasSub time_filter internMarker = false →
      hasSub work_type internMarker = false →
      hasSub (build_search_url keyword location time_filter work_type false)
        internMarker = false) := by
  refine ⟨?_, ?_, ?_⟩
  · intro flag
    rw [hasSub_iff, build_search_url]
    refine List.IsInfix.trans ?_
      (infix_of_suff ⟨"https://www.linkedin.com/jobs/search/?".toList, rfl⟩)
    refine infix_joinAmp_head _ _ _ ?_
    by_cases hint : (flag && !(hasSub (lowerL keyword) ("intern".toList))) = true
    · rw [if_pos hint, encSpaces_append]
      exact ⟨"keywords=".toList, encSpaces (' ' :: "intern".toList),
        by rw [List.append_assoc]⟩
    · rw [if_neg hint]
      exact ⟨"keywords=".toList, [], by simp⟩
  · rw [hasSub_iff, build_search_url]
    refine List.IsInfix.trans ?_
      (infix_of_suff ⟨"https://www.linkedin.com/jobs/search/?".toList, rfl⟩)
    refine infix_joinAmp_mem internMarker _ internMarker ?_ (List.infix_refl _)
    simp
  · intro hk hl ht hw
    rw [build_search_url]
    rw [if_neg (by simp : ¬ ((false
        && !(hasSub (lowerL keyword) ("intern".toList))) = true))]
    rw [if_neg (by simp : ¬ ((false : Bool) = true))]
    by_cases hloc : location = []
    · rw [if_pos hloc]
      by_cases hwt : work_type = []
      · rw [if_pos hwt]
        show hasSub
          ("https://www.linkedin.com/jobs/search/?".toList
            ++ (("keywords=".toList ++ encSpaces keyword)
              ++ '&' :: (("f_TPR=".toList ++ time_filter)
                ++ '&' :: "sortBy=DD".toList)))
          internMarker = false
        rw [show "https://www.linkedin.com/jobs/search/?".toList
              ++ (("keywords=".toList ++ encSpaces keyword)
                ++ '&' :: (("f_TPR=".toList ++ time_filter)
                  ++ '&' :: "sortBy=DD".toList))
            = ("https://www.linkedin.com/jobs/search/?".toList ++ "keywords=".toList)
              ++ (encSpaces keyword
                ++ '&' :: (("f_TPR=".toList ++ time_filter)
                  ++ '&' :: "sortBy=DD".toList))
            from by simp [List.append_assoc]]
        refine chain_lit _ _ (by decide) (by decide) ?_
        refine chain_var_amp _ _ hk ?_
        rw [show ('&' :: (("f_TPR=".toList ++ time_filter) ++ '&' :: "sortBy=DD".toList))
              = ('&' :: "f_TPR=".toList)
                ++ (time_filter ++ '&' :: "sortBy=DD".toList)
            from by simp [List.append_assoc]]
        refine chain_lit _ _ (by decide) (by decide) ?_
        refine chain_var_amp _ _ ht ?_
        decide
      · rw [if_neg hwt]
        show hasSub
          ("https://www.linkedin.com/jobs/search/?".toList
            ++ (("keywords=".toList ++ encSpaces keyword)
              ++ '&' :: (("f_TPR=".toList ++ time_filter)
                ++ '&' :: (("f_WT=".toList ++ work_type)
                  ++ '&' :: "sortBy=DD".toList))))
          internMarker = false
        rw [show "https://www.linkedin.com/jobs/search/?".toList
              ++ (("keywords=".toList ++ encSpaces keyword)
                ++ '&' :: (("f_TPR=".toList ++ time_filter)
                  ++ '&' :: (("f_WT=".toList ++ work_type)
                    ++ '&' :: "sortBy=DD".toList)))
            = ("https://www.linkedin.com/jobs/search/?".toList ++ "keywords=".toList)
              ++ (encSpaces keyword
                ++ '&' :: (("f_TPR=".toList ++ time_filter)
                  ++ '&' :: (("f_WT=".toList ++ work_type)
                    ++ '&' :: "sortBy=DD".toList)))
            from by simp [List.append_assoc]]
        refine chain_lit _ _ (by decide) (by decide) ?_
        refine chain_var_amp _ _ hk ?_
        rw [show ('&' :: (("f_TPR=".toList ++ time_filter)
              ++ '&' :: (("f_WT=".toList ++ work_type) ++ '&' :: "sortBy=DD".toList)))
            = ('&' :: "f_TPR=".toList)
              ++ (time_filter
                ++ '&' :: (("f_WT=".toList ++ work_type) ++ '&' :: "sortBy=DD".toList))
            from by simp [List.append_assoc]]
        refine chain_lit _ _ (by decide) (by decide) ?_
        refine chain_var_amp _ _ ht ?_
        rw [show ('&' :: (("f_WT=".toList ++ work_type) ++ '&' :: "sortBy=DD".toList))
            = ('&' :: "f_WT=".toList) ++ (work_type ++ '&' :: "sortBy=DD".toList)
            from by simp [List.append_assoc]]
        refine chain_lit _ _ (by decide) (by decide) ?_
        refine chain_var_amp _ _ hw ?_
        decide
    · rw [if_neg hloc]
      by_cases hwt : work_type = []
      · rw [if_pos hwt]
        show hasSub
          ("https://www.linkedin.com/jobs/search/?".toList
            ++ (("keywords=".toList ++ encSpaces keyword)
              ++ '&' :: (("location=".toList ++ encSpaces location)
                ++ '&' :: (("f_TPR=".toList ++ time_filter)
                  ++ '&' :: "sortBy=DD".toList))))
          internMarker = false
        rw [show "https://www.linkedin.com/jobs/search/?".toList
              ++ (("keywords=".toList ++ encSpaces keyword)
                ++ '&' :: (("location=".toList ++ encSpaces location)
                  ++ '&' :: (("f_TPR=".toList ++ time_filter)
                    ++ '&' :: "sortBy=DD".toList)))
            = ("https://www.linkedin.com/jobs/search/?".toList ++ "keywords=".toList)
              ++ (encSpaces keyword
                ++ '&' :: (("location=".toList ++ encSpaces location)
                  ++ '&' :: (("f_TPR=".toList ++ time_filter)
                    ++ '&' :: "sortBy=DD".toList)))
            from by simp [List.append_assoc]]
        refine chain_lit _ _ (by decide) (by decide) ?_
        refine chain_var_amp _ _ hk ?_
        rw [show ('&' :: (("location=".toList ++ encSpaces location)
              ++ '&' :: (("f_TPR=".toList ++ time_filter) ++ '&' :: "sortBy=DD".toList)))
            = ('&' :: "location=".toList)
              ++ (encSpaces location
                ++ '&' :: (("f_TPR=".toList ++ time_filter) ++ '&' :: "sortBy=DD".toList))
            from by simp [List.append_assoc]]
        refine chain_lit _ _ (by decide) (by decide) ?_
        refine chain_var_amp _ _ hl ?_
        rw [show ('&' :: (("f_TPR=".toList ++ time_filter) ++ '&' :: "sortBy=DD".toList))
            = ('&' :: "f_TPR=".toList) ++ (time_filter ++ '&' :: "sortBy=DD".toList)
            from by simp [List.append_assoc]]
        refine chain_lit _ _ (by decide) (by decide) ?_
        refine chain_var_amp _ _ ht ?_
        decide
      · rw [if_neg hwt]
        show hasSub
          ("https://www.linkedin.com/jobs/search/?".toList
            ++ (("keywords=".toList ++ encSpaces keyword)
              ++ '&' :: (("location=".toList ++ encSpaces location)
                ++ '&' :: (("f_TPR=".toList ++ time_filter)
                  ++ '&' :: (("f_WT=".toList ++ work_type)
                    ++ '&' :: "sortBy=DD".toList)))))
          internMarker = false
        rw [show "https://www.linkedin.com/jobs/search/?".toList
              ++ (("keywords=".toList ++ encSpaces keyword)
                ++ '&' :: (("location=".toList ++ encSpaces location)
                  ++ '&' :: (("f_TPR=".toList ++ time_filter)
                    ++ '&' :: (("f_WT=".toList ++ work_type)
                      ++ '&' :: "sortBy=DD".toList))))
            = ("https://www.linkedin.com/jobs/search/?".toList ++ "keywords=".toList)
              ++ (encSpaces keyword
                ++ '&' :: (("location=".toList ++ encSpaces location)
                  ++ '&' :: (("f_TPR=".toList ++ time_filter)
                    ++ '&' :: (("f_WT=".toList ++ work_type)
                      ++ '&' :: "sortBy=DD".toList))))
            from by simp [List.append_assoc]]
        refine chain_lit _ _ (by decide) (by decide) ?_
        refine chain_var_amp _ _ hk ?_
        rw [show ('&' :: (("location=".toList ++ encSpaces location)
              ++ '&' :: (("f_TPR=".toList ++ time_filter)
                ++ '&' :: (("f_WT=".toList ++ work_type) ++ '&' :: "sortBy=DD".toList))))
            = ('&' :: "location=".toList)
              ++ (encSpaces location
                ++ '&' :: (("f_TPR=".toList ++ time_filter)
                  ++ '&' :: (("f_WT=".toList ++ work_type) ++ '&' :: "sortBy=DD".toList)))
            from by simp [List.append_assoc]]
        refine chain_lit _ _ (by decide) (by decide) ?_
        refine chain_var_amp _ _ hl ?_
        rw [show ('&' :: (("f_TPR=".toList ++ time_filter)
              ++ '&' :: (("f_WT=".toList ++ work_type) ++ '&' :: "sortBy=DD".toList)))
            = ('&' :: "f_TPR=".toList)
              ++ (time_filter
                ++ '&' :: (("f_WT=".toList ++ work_type) ++ '&' :: "sortBy=DD".toList))
            from by simp [List.append_assoc]]
        refine chain_lit _ _ (by decide) (by decide) ?_
        refine chain_var_amp _ _ ht ?_
        rw [show ('&' :: (("f_WT=".toList ++ work_type) ++ '&' :: "sortBy=DD".toList))
            = ('&' :: "f_WT=".toList) ++ (work_type ++ '&' :: "sortBy=DD".toList)
            from by simp [List.append_assoc]]
        refine chain_lit _ _ (by decide) (by decide) ?_
        refine chain_var_amp _ _ hw ?_
        decide

/-- Witness for `build_search_url_spec`: keyword "Java Developer", no
location, default time filter, flag unset. -/
theorem build_search_url_spec_witness :
    hasSub (build_search_url ("Java Developer".toList) [] ("r86400".toList) [] false)
        (encSpaces ("Java Developer".toList)) = true
    ∧ hasSub (build_search_url ("Java Developer".toList) [] ("r86400".toList) [] false)
        internMarker = false :=
  ⟨(build_search_url_spec ("Java Developer".toList) [] ("r86400".toList) []).1 false,
   (build_search_url_spec ("Java Developer".toList) [] ("r86400".toList) []).2.2
     (by decide) (by decide) (by decide) (by decide)⟩

end FreibuJobs
